import Mathlib

/-!
Verification of the disaster-response ETL pipeline (`src/data/process_data.py`).

The script has three stages: `load_data` (inner merge of two CSV tables on
their shared columns), `clean_data` (decode the semicolon-delimited
`categories` string column into binary columns, clip values to [0,1], drop
constant columns, drop the original column, deduplicate on
`(message, original)`), and `save_data` (bulk write, pure I/O, not modelled).

Tables are embedded as a column-name list plus row-major cell lists.  Text
processing mirrors Python string semantics (`str.split`, `int(...)`) via
structural functions on `List Char` so that everything evaluates in the
kernel.  Fallible steps of `clean_data` return `Except CleanError`; each
error constructor corresponds to the Python exception that the pandas code
raises at that point.
-/

namespace DisasterPipeline

/-- One cell of a table: a text value, a numeric value, or a missing value
(pandas `NaN`/`None`).  `drop_duplicates` treats `NaN` as equal to `NaN`,
which matches the derived decidable equality here. -/
inductive Cell where
  | str : String → Cell
  | int : Int → Cell
  | null : Cell
deriving DecidableEq, Repr

/-- A dataframe: ordered column names and row-major cells. -/
structure Table where
  cols : List String
  rows : List (List Cell)
deriving DecidableEq, Repr

/-- Python `s.split(sep)` for a one-character separator: `"".split(c) = [""]`,
and empty segments between adjacent separators are kept. -/
def splitOnChar (c : Char) : List Char → List (List Char)
  | [] => [[]]
  | x :: xs =>
    if x = c then [] :: splitOnChar c xs
    else
      match splitOnChar c xs with
      | [] => [[x]]
      | t :: ts => (x :: t) :: ts

/-- Digits-only string to `Nat`; `none` when empty or a non-digit occurs. -/
def digitsToNat : List Char → Option Nat
  | [] => none
  | cs => go cs 0
where
  go : List Char → Nat → Option Nat
    | [], acc => some acc
    | c :: cs, acc =>
      if c.isDigit then go cs (acc * 10 + (c.toNat - 48)) else none

/-- Strip leading and trailing whitespace (Python `int` accepts it). -/
def trimChars (cs : List Char) : List Char :=
  ((cs.dropWhile Char.isWhitespace).reverse.dropWhile Char.isWhitespace).reverse

/-- Optional sign followed by digits. -/
def parseSigned : List Char → Option Int
  | '-' :: rest => (digitsToNat rest).map (fun n => -(n : Int))
  | '+' :: rest => (digitsToNat rest).map (fun n => (n : Int))
  | t => (digitsToNat t).map (fun n => (n : Int))

/-- Python `int(s)` on a plain decimal literal: optional surrounding
whitespace, optional sign, then digits.  (Underscore digit grouping, an
exotic Python extra, is out of scope.) -/
def parseIntChars (cs : List Char) : Option Int :=
  parseSigned (trimChars cs)

/-- Errors `clean_data` can raise, one constructor per Python exception site:
`noCategoriesColumn` is the `AttributeError` from `df.categories` when the
column is absent; `categoriesNotText` stands for the `.str` accessor failing
on non-text cells; `emptyTable` is the `IndexError` from `iloc[0]` on a
zero-row frame; `raggedFirstRow` is the `AttributeError` from
`x.split('-')` when the first row is shorter than the widest row and its
padding `None` reaches the column-name lambda; `duplicateColumn` is the
`AttributeError` from `categories[column].str` when decoded names repeat
and label selection yields a frame; `castError` is the
`ValueError`/`TypeError` from `astype(int)` on a missing or non-integer
value segment; `missingDedupKey` is the `KeyError` from `drop_duplicates`
when `message` or `original` is not a column. -/
inductive CleanError where
  | noCategoriesColumn
  | categoriesNotText
  | emptyTable
  | raggedFirstRow
  | duplicateColumn
  | castError
  | missingDedupKey
deriving DecidableEq, Repr

/-- Structural `mapM` over `Except`, stopping at the first error. -/
def mapE (f : α → Except ε β) : List α → Except ε (List β)
  | [] => .ok []
  | a :: l =>
    match f a, mapE f l with
    | .error e, _ => .error e
    | .ok _, .error e => .error e
    | .ok b, .ok bs => .ok (b :: bs)

/-- The text of a cell, if it holds text. -/
def cellStr? : Cell → Option (List Char)
  | .str s => some s.data
  | _ => none

/-- Index of the `categories` column (`df.categories`; `AttributeError` when
absent).  The loaded data carries the label once, so the first index is the
label's column. -/
def getCatIdx (df : Table) : Except CleanError Nat :=
  match df.cols.findIdx? (· = "categories") with
  | some i => .ok i
  | none => .error .noCategoriesColumn

/-- The `categories` column as text, row by row. -/
def catStrsE (df : Table) : Except CleanError (List (List Char)) :=
  match getCatIdx df with
  | .error e => .error e
  | .ok ci =>
    mapE (fun r =>
      match cellStr? (r.getD ci Cell.null) with
      | some s => .ok s
      | none => .error CleanError.categoriesNotText) df.rows

/-- `df.categories.str.split(';', expand=True)` before padding: each row's
token list. -/
def tokenRowsE (df : Table) : Except CleanError (List (List (List Char))) :=
  match catStrsE df with
  | .error e => .error e
  | .ok ss => .ok (ss.map (splitOnChar ';'))

/-- Width of the expanded frame: the longest token list. -/
def maxLen (ls : List (List α)) : Nat :=
  ls.foldl (fun m l => max m l.length) 0

/-- Pad a token list to width `w` with `none` (pandas pads short rows of an
`expand=True` split with `None`). -/
def padTo (w : Nat) (ts : List α) : List (Option α) :=
  ts.map some ++ List.replicate (w - ts.length) none

/-- The expanded categories frame: every row padded to the common width. -/
def paddedE (df : Table) : Except CleanError (List (List (Option (List Char)))) :=
  match tokenRowsE df with
  | .error e => .error e
  | .ok tr => .ok (tr.map (padTo (maxLen tr)))

/-- Column names: `row = categories.iloc[0]`, then
`row.apply(lambda x: x.split('-')[0])`.  `iloc[0]` on an empty frame raises
(`emptyTable`); a padding `None` in the first row raises inside the lambda
(`raggedFirstRow`). -/
def colnamesE (df : Table) : Except CleanError (List (List Char)) :=
  match paddedE df with
  | .error e => .error e
  | .ok [] => .error .emptyTable
  | .ok (r0 :: _) =>
    mapE (fun o =>
      match o with
      | some x => .ok ((splitOnChar '-' x).headD [])
      | none => .error CleanError.raggedFirstRow) r0

/-- Per-cell value extraction `tok.split('-')[1]` followed by `int(...)`:
`none` when index 1 is out of range (pandas turns that into `NaN`) or the
segment is not an integer literal. -/
def tokenValue (cs : List Char) : Option Int :=
  ((splitOnChar '-' cs).get? 1).bind parseIntChars

/-- `astype(int)` on one cell of the expanded frame: a padding `NaN`, a
missing value segment, or a non-numeric segment all raise. -/
def cellValue (o : Option (List Char)) : Except CleanError Int :=
  match o with
  | none => .error .castError
  | some cs =>
    match tokenValue cs with
    | none => .error .castError
    | some v => .ok v

/-- `categories.clip(0, 1)` on one value. -/
def clip (v : Int) : Int := max 0 (min 1 v)

/-- The numeric categories frame after the conversion loop and `clip(0,1)`,
row-major.  All astype failures carry the same error value, so the
row-major traversal returns the same `Except` result as pandas'
column-major loop. -/
def clippedE (df : Table) : Except CleanError (List (List Int)) :=
  match paddedE df with
  | .error e => .error e
  | .ok pad =>
    match mapE (mapE cellValue) pad with
    | .error e => .error e
    | .ok num => .ok (num.map (fun r => r.map clip))

/-- Indices of the columns kept by the degenerate-column pruning: those
whose distinct-value count (`len(categories[column].unique())`) is not 1. -/
def survivorsE (df : Table) : Except CleanError (List Nat) :=
  match tokenRowsE df, clippedE df with
  | .error e, _ => .error e
  | _, .error e => .error e
  | .ok tr, .ok m =>
    .ok ((List.range (maxLen tr)).filter
      (fun j => (m.map (fun r => r.getD j 0)).dedup.length ≠ 1))

/-- Names of the surviving category columns, in first-row token order. -/
def survivorNamesE (df : Table) : Except CleanError (List (List Char)) :=
  match colnamesE df, survivorsE df with
  | .error e, _ => .error e
  | _, .error e => .error e
  | .ok names, .ok surv => .ok (surv.map (fun j => names.getD j []))

/-- The surviving category cells of each row, as table cells. -/
def catRowsE (df : Table) : Except CleanError (List (List Cell)) :=
  match clippedE df, survivorsE df with
  | .error e, _ => .error e
  | _, .error e => .error e
  | .ok m, .ok surv =>
    .ok (m.map (fun r => surv.map (fun j => Cell.int (r.getD j 0))))

/-- `df.drop('categories', axis=1, inplace=True)`: the caller's table after
the in-place drop. -/
def mutTableE (df : Table) : Except CleanError Table :=
  match getCatIdx df with
  | .error e => .error e
  | .ok ci => .ok ⟨df.cols.eraseIdx ci, df.rows.map (fun r => r.eraseIdx ci)⟩

/-- `clean_data` up to (and including) `pd.concat([df, categories], axis=1)`
but before `drop_duplicates`: returns the concatenated table together with
the mutated caller table.  Both frames carry the same range index, so the
concat is a positional zip.  The duplicate-name check sits where pandas'
conversion loop would first select a duplicated label. -/
def clean_pre (df : Table) : Except CleanError (Table × Table) :=
  match colnamesE df with
  | .error e => .error e
  | .ok names =>
    if names.Nodup then
      match mutTableE df, survivorNamesE df, catRowsE df with
      | .error e, _, _ => .error e
      | _, .error e, _ => .error e
      | _, _, .error e => .error e
      | .ok mdf, .ok catNames, .ok catRows =>
        .ok (⟨mdf.cols ++ catNames.map (fun n => String.mk n),
              List.zipWith (· ++ ·) mdf.rows catRows⟩, mdf)
    else .error .duplicateColumn

/-- The `(message, original)` dedup key of a row, given the two column
indices. -/
def dedupKey (mi oi : Nat) (r : List Cell) : Cell × Cell :=
  (r.getD mi Cell.null, r.getD oi Cell.null)

/-- `drop_duplicates(subset=..., keep='first')`: keep a row iff its key has
not been seen in an earlier row.  `NaN` keys compare equal, as in pandas. -/
def dropDupBy (k : α → β) [DecidableEq β] (seen : List β) : List α → List α
  | [] => []
  | x :: xs =>
    if k x ∈ seen then dropDupBy k seen xs
    else x :: dropDupBy k (k x :: seen) xs

/-- `clean_data(df)`: the full transform.  Returns the cleaned table
together with the caller-visible state of the input table after the call
(the in-place drop of `categories` is the function's one side effect). -/
def clean_data (df : Table) : Except CleanError (Table × Table) :=
  match clean_pre df with
  | .error e => .error e
  | .ok (pre, mdf) =>
    match pre.cols.findIdx? (· = "message"), pre.cols.findIdx? (· = "original") with
    | none, _ => .error .missingDedupKey
    | _, none => .error .missingDedupKey
    | some mi, some oi =>
      .ok (⟨pre.cols, dropDupBy (dedupKey mi oi) [] pre.rows⟩, mdf)

/-- Cell of row `r` (with schema `cols`) in the column named `name`. -/
def getCell (cols : List String) (r : List Cell) (name : String) : Cell :=
  match cols.findIdx? (· = name) with
  | some i => r.getD i Cell.null
  | none => Cell.null

/-- `messages.merge(categories)`: inner join on all shared column names.
Result columns are the left table's columns followed by the right-only
columns; each left row pairs with every right row agreeing on all shared
columns.  No identifier overlap between the rows silently yields a table
with zero rows — the function is total and never warns or fails. -/
def load_data (messages categories : Table) : Table :=
  let common := messages.cols.filter (fun n => categories.cols.contains n)
  let rightOnly := categories.cols.filter (fun n => ¬ messages.cols.contains n)
  { cols := messages.cols ++ rightOnly,
    rows := messages.rows.flatMap (fun rm =>
      (categories.rows.filter (fun rc =>
        common.all (fun n => getCell messages.cols rm n = getCell categories.cols rc n))).map
        (fun rc => rm ++ rightOnly.map (fun n => getCell categories.cols rc n))) }

/-- Observable actions of `main`, in order: the banner prints, the three
pipeline stages (abstract markers; their file I/O is outside the model),
and the usage message of the `else` branch. -/
inductive Step where
  | printLoading
  | loadData
  | printCleaning
  | cleanData
  | printSaving
  | saveData
  | printDone
  | printUsage
deriving DecidableEq, Repr

/-- `main()` as a trace: given `sys.argv` (program name plus arguments), the
ordered actions it performs and the process exit status.  The Python
function returns `None` on both branches, so the interpreter exits with
status 0 either way. -/
def mainRun (argv : List String) : List Step × Nat :=
  if argv.length = 4 then
    ([Step.printLoading, Step.loadData, Step.printCleaning, Step.cleanData,
      Step.printSaving, Step.saveData, Step.printDone], 0)
  else
    ([Step.printUsage], 0)

/-- The spec's `name-digit` token shape: a name, a hyphen, and a single
final digit character. -/
def isNameDigit (tok : String) : Bool :=
  match tok.data.reverse with
  | d :: h :: _ => d.isDigit && h = '-'
  | _ => false

/-! ### Lemmas about `dropDupBy` (the `drop_duplicates` model) -/

section DropDup

variable {α β : Type _} [DecidableEq β] (k : α → β)

theorem dropDupBy_sublist (seen : List β) (l : List α) :
    (dropDupBy k seen l).Sublist l := by
  induction l generalizing seen with
  | nil => simp [dropDupBy]
  | cons x xs ih =>
    simp only [dropDupBy]
    split
    · exact (ih seen).cons x
    · exact (ih (k x :: seen)).cons₂ x

theorem key_not_seen_of_mem_dropDupBy (seen : List β) (l : List α) (x : α)
    (hx : x ∈ dropDupBy k seen l) : k x ∉ seen := by
  induction l generalizing seen with
  | nil => simp [dropDupBy] at hx
  | cons y ys ih =>
    simp only [dropDupBy] at hx
    split at hx
    · exact ih seen hx
    · rcases List.mem_cons.1 hx with rfl | h
      · assumption
      · intro hmem
        exact ih (k y :: seen) h (List.mem_cons_of_mem _ hmem)

theorem dropDupBy_pairwise (seen : List β) (l : List α) :
    (dropDupBy k seen l).Pairwise (fun a b => k a ≠ k b) := by
  induction l generalizing seen with
  | nil => simp [dropDupBy]
  | cons x xs ih =>
    simp only [dropDupBy]
    split
    · exact ih seen
    · refine List.Pairwise.cons (fun b hb hkb => ?_) (ih (k x :: seen))
      exact key_not_seen_of_mem_dropDupBy k _ _ b hb (by simp [hkb])

theorem first_mem_dropDupBy (seen : List β) (l1 : List α) (x : α) (l2 : List α)
    (hseen : k x ∉ seen) (hfirst : ∀ z ∈ l1, k z ≠ k x) :
    x ∈ dropDupBy k seen (l1 ++ x :: l2) := by
  induction l1 generalizing seen with
  | nil =>
    simp only [List.nil_append, dropDupBy, if_neg hseen]
    exact List.mem_cons_self x _
  | cons y ys ih =>
    have hy : k y ≠ k x := hfirst y (List.mem_cons_self y ys)
    simp only [List.cons_append, dropDupBy]
    split
    · exact ih seen hseen (fun z hz => hfirst z (List.mem_cons_of_mem _ hz))
    · refine List.mem_cons_of_mem _ ?_
      refine ih (k y :: seen) ?_ (fun z hz => hfirst z (List.mem_cons_of_mem _ hz))
      simp only [List.mem_cons, not_or]
      exact ⟨fun h => hy h.symm, hseen⟩

theorem countP_dropDupBy_of_seen (l : List α) (seen : List β) (κ : β)
    (hκ : κ ∈ seen) :
    (dropDupBy k seen l).countP (fun a => decide (k a = κ)) = 0 := by
  induction l generalizing seen with
  | nil => simp [dropDupBy]
  | cons y ys ih =>
    simp only [dropDupBy]
    split
    · exact ih seen hκ
    · rw [List.countP_cons, ih (k y :: seen) (List.mem_cons_of_mem _ hκ)]
      have hky : ¬ (k y = κ) := by
        rename_i hns
        exact fun h => hns (h ▸ hκ)
      simp [hky]

theorem countP_dropDupBy_le_one (seen : List β) (l : List α) (κ : β) :
    (dropDupBy k seen l).countP (fun a => decide (k a = κ)) ≤ 1 := by
  induction l generalizing seen with
  | nil => simp [dropDupBy]
  | cons y ys ih =>
    simp only [dropDupBy]
    split
    · exact ih seen
    · rw [List.countP_cons]
      by_cases hky : k y = κ
      · rw [countP_dropDupBy_of_seen k ys (k y :: seen) κ (by simp [hky])]
        simp [hky]
      · simpa [hky] using ih (k y :: seen)

end DropDup

/-! ### Lemmas about `mapE` -/

theorem mapE_ok_length {f : α → Except ε β} {l : List α} {l' : List β}
    (h : mapE f l = .ok l') : l'.length = l.length := by
  induction l generalizing l' with
  | nil => cases h; rfl
  | cons a as ih =>
    simp only [mapE] at h
    split at h
    · cases h
    · cases h
    · rename_i b bs hb hbs
      cases h
      simp [ih hbs]

theorem mapE_ok_mem {f : α → Except ε β} {l : List α} {l' : List β}
    (h : mapE f l = .ok l') : ∀ b ∈ l', ∃ a ∈ l, f a = .ok b := by
  induction l generalizing l' with
  | nil => cases h; simp
  | cons a as ih =>
    simp only [mapE] at h
    split at h
    · cases h
    · cases h
    · rename_i b bs hb hbs
      cases h
      intro c hc
      rcases List.mem_cons.1 hc with rfl | hc
      · exact ⟨a, List.mem_cons_self a as, hb⟩
      · rcases ih hbs c hc with ⟨a', ha', hfa'⟩
        exact ⟨a', List.mem_cons_of_mem _ ha', hfa'⟩

/-! ### Lemmas about `splitOnChar`, `digitsToNat`, `parseIntChars` -/

theorem splitOnChar_ne_nil (c : Char) (l : List Char) : splitOnChar c l ≠ [] := by
  cases l with
  | nil => simp [splitOnChar]
  | cons x xs =>
    simp only [splitOnChar]
    split
    · simp
    · split <;> simp

/-- Splitting at the first separator: a separator-free segment, the
separator, and the rest. -/
theorem splitOnChar_append (c : Char) (l1 l2 : List Char) (h : c ∉ l1) :
    splitOnChar c (l1 ++ c :: l2) = l1 :: splitOnChar c l2 := by
  induction l1 with
  | nil => simp [splitOnChar]
  | cons x xs ih =>
    have hxc : ¬ (x = c) := fun hx => h (hx ▸ List.mem_cons_self x xs)
    have hcxs : c ∉ xs := fun hx => h (List.mem_cons_of_mem _ hx)
    simp only [List.cons_append, splitOnChar, if_neg hxc, List.append_eq, ih hcxs]

/-- A separator-free list does not split. -/
theorem splitOnChar_of_not_mem (c : Char) (l : List Char) (h : c ∉ l) :
    splitOnChar c l = [l] := by
  induction l with
  | nil => rfl
  | cons x xs ih =>
    have hxc : ¬ (x = c) := fun hx => h (hx ▸ List.mem_cons_self x xs)
    have hcxs : c ∉ xs := fun hx => h (List.mem_cons_of_mem _ hx)
    simp only [splitOnChar, if_neg hxc, ih hcxs]

theorem digitsToNat_single (d : Char) (hd : d.isDigit = true) :
    digitsToNat [d] = some (d.toNat - 48) := by
  simp [digitsToNat, digitsToNat.go, hd]

/-- A digit character is not whitespace and not a sign character. -/
theorem isDigit_plain (d : Char) (hd : d.isDigit = true) :
    d.isWhitespace = false ∧ d ≠ '-' ∧ d ≠ '+' := by
  refine ⟨?_, ?_, ?_⟩
  · by_contra h
    have hw : d.isWhitespace = true := by
      cases hw : d.isWhitespace
      · exact absurd hw h
      · rfl
    simp only [Char.isWhitespace] at hw
    rcases Bool.or_eq_true_iff.1 hw with h1 | h1
    · rcases Bool.or_eq_true_iff.1 h1 with h2 | h2
      · rcases Bool.or_eq_true_iff.1 h2 with h3 | h3
        · cases decide_eq_true_eq.mp h3; cases hd
        · cases decide_eq_true_eq.mp h3; cases hd
      · cases decide_eq_true_eq.mp h2; cases hd
    · cases decide_eq_true_eq.mp h1; cases hd
  · rintro rfl; cases hd
  · rintro rfl; cases hd

/-- Trimming is the identity on nonempty all-digit strings. -/
theorem trimChars_digits (ds : List Char) (hne : ds ≠ [])
    (hds : ∀ c ∈ ds, c.isDigit = true) : trimChars ds = ds := by
  unfold trimChars
  cases ds with
  | nil => cases hne rfl
  | cons d rest =>
    have hd := (isDigit_plain d (hds d (List.mem_cons_self _ _))).1
    rw [List.dropWhile_cons_of_neg (by simp [hd])]
    cases hrev : (d :: rest).reverse with
    | nil => simpa using congrArg List.length hrev
    | cons e tail =>
      have he : e ∈ d :: rest :=
        List.mem_reverse.mp (hrev ▸ List.mem_cons_self _ _)
      have hew := (isDigit_plain e (hds e he)).1
      rw [List.dropWhile_cons_of_neg (by simp [hew]),
        show e :: tail = (d :: rest).reverse from hrev.symm,
        List.reverse_reverse]

/-- On all-digit input the sign match falls through to the digits arm. -/
theorem parseSigned_digits (t : List Char)
    (hds : ∀ c ∈ t, c.isDigit = true) :
    parseSigned t = (digitsToNat t).map (fun n => (n : Int)) := by
  cases t with
  | nil => rfl
  | cons d rest =>
    have hd := isDigit_plain d (hds d (List.mem_cons_self _ _))
    unfold parseSigned
    split
    · rename_i heq
      cases heq
      exact absurd rfl hd.2.1
    · rename_i heq
      cases heq
      exact absurd rfl hd.2.2
    · rfl

/-- Python `int` on a nonempty digit string is just the digit value. -/
theorem parseIntChars_digits (ds : List Char) (hne : ds ≠ [])
    (hds : ∀ c ∈ ds, c.isDigit = true) :
    parseIntChars ds = (digitsToNat ds).map (fun n => (n : Int)) := by
  unfold parseIntChars
  rw [trimChars_digits ds hne hds, parseSigned_digits ds hds]

/-! ### List helpers: `maxLen`, `padTo`, index selection -/

theorem le_foldl_max (ls : List (List α)) (acc : Nat) :
    acc ≤ ls.foldl (fun m l => max m l.length) acc := by
  induction ls generalizing acc with
  | nil => exact Nat.le_refl acc
  | cons x xs ih =>
    exact Nat.le_trans (Nat.le_max_left acc x.length) (ih (max acc x.length))

theorem length_le_maxLen (ls : List (List α)) (l : List α) (h : l ∈ ls) :
    l.length ≤ maxLen ls := by
  unfold maxLen
  generalize 0 = acc
  induction ls generalizing acc with
  | nil => cases h
  | cons x xs ih =>
    rcases List.mem_cons.1 h with rfl | h
    · exact Nat.le_trans (Nat.le_max_right acc l.length) (le_foldl_max xs _)
    · exact ih h _

theorem padTo_length (w : Nat) (ts : List α) (h : ts.length ≤ w) :
    (padTo w ts).length = w := by
  simp only [padTo, List.length_append, List.length_map, List.length_replicate]
  omega

/-- Selecting a set of positions (an increasing index filter) from a list
yields a sublist. -/
theorem filter_range_map_getD_sublist (l : List α) (p : Nat → Bool) (d : α) :
    (((List.range l.length).filter p).map (fun j => l.getD j d)).Sublist l := by
  induction l generalizing p with
  | nil => simp
  | cons a as ih =>
    rw [List.length_cons, List.range_succ_eq_map, List.filter_cons]
    have hmap : ∀ (r : List Nat),
        (r.map Nat.succ |>.filter p).map (fun j => (a :: as).getD j d)
          = (r.filter (fun j => p (Nat.succ j))).map (fun j => as.getD j d) := by
      intro r
      rw [List.filter_map, List.map_map]
      rfl
    by_cases hp : p 0
    · simp only [hp, if_pos, List.map_cons]
      rw [hmap]
      exact (ih (fun j => p (Nat.succ j))).cons₂ a
    · simp only [hp]
      rw [if_neg (by simp [hp]), hmap]
      exact (ih (fun j => p (Nat.succ j))).cons a

theorem mem_zipWith {f : α → β → γ} {l1 : List α} {l2 : List β} {x : γ}
    (h : x ∈ List.zipWith f l1 l2) : ∃ a ∈ l1, ∃ b ∈ l2, x = f a b := by
  induction l1 generalizing l2 with
  | nil => simp at h
  | cons a as ih =>
    cases l2 with
    | nil => simp at h
    | cons b bs =>
      rcases List.mem_cons.1 h with rfl | h
      · exact ⟨a, List.mem_cons_self _ _, b, List.mem_cons_self _ _, rfl⟩
      · rcases ih h with ⟨a', ha', b', hb', rfl⟩
        exact ⟨a', List.mem_cons_of_mem _ ha', b', List.mem_cons_of_mem _ hb', rfl⟩

theorem getD_inj_of_nodup {l : List α} (hl : l.Nodup) {i j : Nat} (d : α)
    (hi : i < l.length) (hj : j < l.length)
    (h : l.getD i d = l.getD j d) : i = j := by
  rw [List.getD_eq_getElem?_getD, List.getD_eq_getElem?_getD,
    List.getElem?_eq_getElem hi, List.getElem?_eq_getElem hj] at h
  exact (List.Nodup.getElem_inj_iff hl).1 h

theorem dedup_length_one {α : Type _} [DecidableEq α] (l : List α)
    (hne : l ≠ []) (hconst : ∀ a ∈ l, ∀ b ∈ l, a = b) :
    l.dedup.length = 1 := by
  induction l with
  | nil => cases hne rfl
  | cons x xs ih =>
    by_cases hxs : xs = []
    · subst hxs; simp
    · have hall : ∀ a ∈ xs, a = x := by
        intro a ha
        exact hconst a (List.mem_cons_of_mem _ ha) x (List.mem_cons_self _ _)
      have hmem : x ∈ xs := by
        cases xs with
        | nil => cases hxs rfl
        | cons y ys =>
          exact List.mem_cons.2 (Or.inl (hall y (List.mem_cons_self _ _)).symm)
      rw [List.dedup_cons_of_mem hmem]
      refine ih hxs ?_
      intro a ha b hb
      exact hconst a (List.mem_cons_of_mem _ ha) b (List.mem_cons_of_mem _ hb)

/-! ### Inversion lemmas for the pipeline stages -/

theorem getCatIdx_ok {df : Table} {ci : Nat} (h : getCatIdx df = .ok ci) :
    df.cols.findIdx? (· = "categories") = some ci := by
  unfold getCatIdx at h
  cases hc : df.cols.findIdx? (· = "categories") with
  | none => rw [hc] at h; cases h
  | some i => rw [hc] at h; cases h; rfl

theorem catStrsE_ok {df : Table} {ss : List (List Char)}
    (h : catStrsE df = .ok ss) :
    ∃ ci, getCatIdx df = .ok ci ∧
      mapE (fun r =>
        match cellStr? (r.getD ci Cell.null) with
        | some s => .ok s
        | none => .error CleanError.categoriesNotText) df.rows = .ok ss := by
  unfold catStrsE at h
  cases hc : getCatIdx df with
  | error e => rw [hc] at h; cases h
  | ok ci => rw [hc] at h; exact ⟨ci, rfl, h⟩

theorem tokenRowsE_ok {df : Table} {tr : List (List (List Char))}
    (h : tokenRowsE df = .ok tr) :
    ∃ ss, catStrsE df = .ok ss ∧ tr = ss.map (splitOnChar ';') := by
  unfold tokenRowsE at h
  cases hc : catStrsE df with
  | error e => rw [hc] at h; cases h
  | ok ss => rw [hc] at h; cases h; exact ⟨ss, rfl, rfl⟩

theorem paddedE_ok {df : Table} {pad : List (List (Option (List Char)))}
    (h : paddedE df = .ok pad) :
    ∃ tr, tokenRowsE df = .ok tr ∧ pad = tr.map (padTo (maxLen tr)) := by
  unfold paddedE at h
  cases hc : tokenRowsE df with
  | error e => rw [hc] at h; cases h
  | ok tr => rw [hc] at h; cases h; exact ⟨tr, rfl, rfl⟩

theorem colnamesE_ok {df : Table} {names : List (List Char)}
    (h : colnamesE df = .ok names) :
    ∃ r0 prest, paddedE df = .ok (r0 :: prest) ∧
      mapE (fun o =>
        match o with
        | some x => .ok ((splitOnChar '-' x).headD [])
        | none => .error CleanError.raggedFirstRow) r0 = .ok names := by
  unfold colnamesE at h
  cases hc : paddedE df with
  | error e => rw [hc] at h; cases h
  | ok pad =>
    rw [hc] at h
    cases pad with
    | nil => cases h
    | cons r0 prest => exact ⟨r0, prest, rfl, h⟩

theorem clippedE_ok {df : Table} {m : List (List Int)}
    (h : clippedE df = .ok m) :
    ∃ pad num, paddedE df = .ok pad ∧ mapE (mapE cellValue) pad = .ok num ∧
      m = num.map (fun r => r.map clip) := by
  unfold clippedE at h
  split at h
  · cases h
  · split at h
    · cases h
    · cases h
      exact ⟨_, _, by assumption, by assumption, rfl⟩

theorem survivorsE_ok {df : Table} {surv : List Nat}
    (h : survivorsE df = .ok surv) :
    ∃ tr m, tokenRowsE df = .ok tr ∧ clippedE df = .ok m ∧
      surv = (List.range (maxLen tr)).filter
        (fun j => (m.map (fun r => r.getD j 0)).dedup.length ≠ 1) := by
  unfold survivorsE at h
  split at h
  · cases h
  · cases h
  · cases h
    exact ⟨_, _, by assumption, by assumption, rfl⟩

theorem survivorNamesE_ok {df : Table} {catNames : List (List Char)}
    (h : survivorNamesE df = .ok catNames) :
    ∃ names surv, colnamesE df = .ok names ∧ survivorsE df = .ok surv ∧
      catNames = surv.map (fun j => names.getD j []) := by
  unfold survivorNamesE at h
  split at h
  · cases h
  · cases h
  · cases h
    exact ⟨_, _, by assumption, by assumption, rfl⟩

theorem catRowsE_ok {df : Table} {cr : List (List Cell)}
    (h : catRowsE df = .ok cr) :
    ∃ m surv, clippedE df = .ok m ∧ survivorsE df = .ok surv ∧
      cr = m.map (fun r => surv.map (fun j => Cell.int (r.getD j 0))) := by
  unfold catRowsE at h
  split at h
  · cases h
  · cases h
  · cases h
    exact ⟨_, _, by assumption, by assumption, rfl⟩

theorem mutTableE_ok {df mdf : Table} (h : mutTableE df = .ok mdf) :
    ∃ ci, getCatIdx df = .ok ci ∧
      mdf = ⟨df.cols.eraseIdx ci, df.rows.map (fun r => r.eraseIdx ci)⟩ := by
  unfold mutTableE at h
  cases hc : getCatIdx df with
  | error e => rw [hc] at h; cases h
  | ok ci => rw [hc] at h; cases h; exact ⟨ci, rfl, rfl⟩

theorem clean_pre_ok {df pre mdf : Table}
    (h : clean_pre df = .ok (pre, mdf)) :
    ∃ names catNames catRows,
      colnamesE df = .ok names ∧ names.Nodup ∧
      mutTableE df = .ok mdf ∧
      survivorNamesE df = .ok catNames ∧
      catRowsE df = .ok catRows ∧
      pre.cols = mdf.cols ++ catNames.map (fun n => String.mk n) ∧
      pre.rows = List.zipWith (· ++ ·) mdf.rows catRows := by
  unfold clean_pre at h
  split at h
  · cases h
  · split at h
    · split at h
      · cases h
      · cases h
      · cases h
      · cases h
        exact ⟨_, _, _, by assumption, by assumption, by assumption,
          by assumption, by assumption, rfl, rfl⟩
    · cases h

theorem clean_data_ok {df out mdf : Table}
    (h : clean_data df = .ok (out, mdf)) :
    ∃ pre mi oi,
      clean_pre df = .ok (pre, mdf) ∧
      pre.cols.findIdx? (· = "message") = some mi ∧
      pre.cols.findIdx? (· = "original") = some oi ∧
      out.cols = pre.cols ∧
      out.rows = dropDupBy (dedupKey mi oi) [] pre.rows := by
  unfold clean_data at h
  split at h
  · cases h
  · split at h
    · cases h
    · cases h
    · cases h
      rename_i mi oi hmi hoi hp
      exact ⟨_, mi, oi, hp, hmi, hoi, rfl, rfl⟩

/-! ### Small derived helpers -/

theorem findIdx?_some_lt {l : List α} {p : α → Bool} {i : Nat}
    (h : l.findIdx? p = some i) : i < l.length :=
  (List.findIdx?_eq_some_iff_findIdx_eq.1 h).1

theorem getD_append_right_of_le {l1 l2 : List α} {n : Nat} (d : α)
    (h : l1.length ≤ n) : (l1 ++ l2).getD n d = l2.getD (n - l1.length) d := by
  simp [List.getD_eq_getElem?_getD, List.getElem?_append_right h]

theorem clip_binary (v : Int) : clip v = 0 ∨ clip v = 1 := by
  unfold clip
  omega

theorem getD_map_clip_binary (nr : List Int) (j : Nat) :
    (nr.map clip).getD j 0 = 0 ∨ (nr.map clip).getD j 0 = 1 := by
  rw [List.getD_eq_getElem?_getD, List.getElem?_map]
  cases h : nr[j]? with
  | none => exact Or.inl rfl
  | some v => exact clip_binary v

/-! ### Concrete tables used by witnesses and counterexamples -/

/-- A three-row input in the shape of the loaded disaster data: two rows
duplicate the `(message, original)` pair, and the `offer` category is
constant. -/
def sampleTable : Table :=
  ⟨["id", "message", "original", "genre", "categories"],
   [[Cell.int 1, Cell.str "Help me", Cell.str "Aidez-moi", Cell.str "direct",
     Cell.str "related-1;request-0;offer-1"],
    [Cell.int 2, Cell.str "Help me", Cell.str "Aidez-moi", Cell.str "direct",
     Cell.str "related-0;request-1;offer-1"],
    [Cell.int 3, Cell.str "Water", Cell.null, Cell.str "news",
     Cell.str "related-1;request-1;offer-1"]]⟩

/-- `sampleTable` as the caller sees it after `clean_data`: the
`categories` column is gone. -/
def sampleMut : Table :=
  ⟨["id", "message", "original", "genre"],
   [[Cell.int 1, Cell.str "Help me", Cell.str "Aidez-moi", Cell.str "direct"],
    [Cell.int 2, Cell.str "Help me", Cell.str "Aidez-moi", Cell.str "direct"],
    [Cell.int 3, Cell.str "Water", Cell.null, Cell.str "news"]]⟩

/-- The concatenated table of `sampleTable` before deduplication. -/
def samplePre : Table :=
  ⟨["id", "message", "original", "genre", "related", "request"],
   [[Cell.int 1, Cell.str "Help me", Cell.str "Aidez-moi", Cell.str "direct",
     Cell.int 1, Cell.int 0],
    [Cell.int 2, Cell.str "Help me", Cell.str "Aidez-moi", Cell.str "direct",
     Cell.int 0, Cell.int 1],
    [Cell.int 3, Cell.str "Water", Cell.null, Cell.str "news",
     Cell.int 1, Cell.int 1]]⟩

/-- The cleaned output for `sampleTable`: `offer` pruned (constant), the
second row deduplicated away. -/
def sampleOut : Table :=
  ⟨["id", "message", "original", "genre", "related", "request"],
   [[Cell.int 1, Cell.str "Help me", Cell.str "Aidez-moi", Cell.str "direct",
     Cell.int 1, Cell.int 0],
    [Cell.int 3, Cell.str "Water", Cell.null, Cell.str "news",
     Cell.int 1, Cell.int 1]]⟩

theorem sample_clean_eq : clean_data sampleTable = .ok (sampleOut, sampleMut) := rfl

theorem sample_pre_eq : clean_pre sampleTable = .ok (samplePre, sampleMut) := rfl

/-- An input whose second category token `request-12` does not have the
`name-digit` shape (two digits). -/
def tok12Table : Table :=
  ⟨["id", "message", "original", "categories"],
   [[Cell.int 1, Cell.str "a", Cell.null, Cell.str "related-1;request-12"],
    [Cell.int 2, Cell.str "b", Cell.null, Cell.str "related-0;request-0"]]⟩

/-- `clean_data tok12Table` succeeds; the `12` is parsed and clamped to 1. -/
def tok12Out : Table :=
  ⟨["id", "message", "original", "related", "request"],
   [[Cell.int 1, Cell.str "a", Cell.null, Cell.int 1, Cell.int 1],
    [Cell.int 2, Cell.str "b", Cell.null, Cell.int 0, Cell.int 0]]⟩

def tok12Mut : Table :=
  ⟨["id", "message", "original"],
   [[Cell.int 1, Cell.str "a", Cell.null],
    [Cell.int 2, Cell.str "b", Cell.null]]⟩

/-- An input whose first (and only) record has an empty category string. -/
def emptyCatTable : Table :=
  ⟨["id", "message", "original", "categories"],
   [[Cell.int 1, Cell.str "a", Cell.null, Cell.str ""]]⟩

/-- Two records with the same message and a missing `original` in both. -/
def nullDupTable : Table :=
  ⟨["id", "message", "original", "categories"],
   [[Cell.int 1, Cell.str "Help", Cell.null, Cell.str "alert-1"],
    [Cell.int 2, Cell.str "Help", Cell.null, Cell.str "alert-0"]]⟩

def nullDupPre : Table :=
  ⟨["id", "message", "original", "alert"],
   [[Cell.int 1, Cell.str "Help", Cell.null, Cell.int 1],
    [Cell.int 2, Cell.str "Help", Cell.null, Cell.int 0]]⟩

def nullDupMut : Table :=
  ⟨["id", "message", "original"],
   [[Cell.int 1, Cell.str "Help", Cell.null],
    [Cell.int 2, Cell.str "Help", Cell.null]]⟩

/-- Only the first of the two null-original duplicates survives. -/
def nullDupOut : Table :=
  ⟨["id", "message", "original", "alert"],
   [[Cell.int 1, Cell.str "Help", Cell.null, Cell.int 1]]⟩

theorem nullDup_pre_eq : clean_pre nullDupTable = .ok (nullDupPre, nullDupMut) := rfl

theorem nullDup_clean_eq : clean_data nullDupTable = .ok (nullDupOut, nullDupMut) := rfl

/-- A messages table and a categories table with no shared `id` value. -/
def disjointMessages : Table :=
  ⟨["id", "message", "original", "genre"],
   [[Cell.int 1, Cell.str "Help", Cell.null, Cell.str "direct"]]⟩

def disjointCategories : Table :=
  ⟨["id", "categories"],
   [[Cell.int 2, Cell.str "related-1"]]⟩

/-! ### C5 — idempotence on clean output -/

/-- C5 counterexample: the claim says a second `clean` run on clean's own
output is a no-op (`clean (clean T) = clean T`).  On `sampleTable` the
first run succeeds but the second run raises the missing-column error, so
`clean` is not idempotent on its image. -/
theorem clean_twice_errors_cx :
    clean_data sampleTable = .ok (sampleOut, sampleMut) ∧
    clean_data sampleOut = Except.error CleanError.noCategoriesColumn :=
  ⟨sample_clean_eq, rfl⟩

/-- C5 (amended): running `clean` on its own output is not a no-op — when
no `categories` column remains in the output, a second run fails with the
missing-column error (`df.categories` raises `AttributeError`) instead of
returning the table unchanged. -/
theorem clean_on_own_output_errors (t out mdf : Table)
    (_h : clean_data t = .ok (out, mdf))
    (hnone : out.cols.findIdx? (· = "categories") = none) :
    clean_data out = Except.error CleanError.noCategoriesColumn := by
  have hcat : getCatIdx out = .error .noCategoriesColumn := by
    unfold getCatIdx
    rw [hnone]
  simp [clean_data, clean_pre, colnamesE, paddedE, tokenRowsE, catStrsE, hcat]

/-- C5 witness: the amended theorem applied to `sampleTable`. -/
theorem clean_on_own_output_errors_witness :
    clean_data sampleOut = Except.error CleanError.noCategoriesColumn :=
  clean_on_own_output_errors sampleTable sampleOut sampleMut sample_clean_eq rfl

/-! ### C6 — freedom from side effects -/

/-- C6 counterexample: the claim says the caller's input table is unchanged
after `clean`.  On `sampleTable` the caller's table after the call
(`sampleMut`) differs from the input: the `categories` column is gone. -/
theorem clean_side_effect_cx :
    clean_data sampleTable = .ok (sampleOut, sampleMut) ∧
    sampleMut ≠ sampleTable :=
  ⟨sample_clean_eq, by decide⟩

/-- C6 (amended): `clean` is not side-effect free — it drops the
`categories` column from the caller's table in place
(`df.drop('categories', axis=1, inplace=True)`), so after a successful call
the caller's table is exactly the input with that column removed; all other
columns and rows are untouched. -/
theorem clean_mutates_caller (t out mdf : Table) (ci : Nat)
    (h : clean_data t = .ok (out, mdf))
    (hci : t.cols.findIdx? (· = "categories") = some ci) :
    mdf = ⟨t.cols.eraseIdx ci, t.rows.map (fun r => r.eraseIdx ci)⟩ := by
  obtain ⟨pre, mi, oi, hp, -, -, -, -⟩ := clean_data_ok h
  obtain ⟨names, catNames, catRows, -, -, hmut, -, -, -, -⟩ := clean_pre_ok hp
  obtain ⟨ci2, hci2, hmdf⟩ := mutTableE_ok hmut
  have hidx := getCatIdx_ok hci2
  rw [hci] at hidx
  cases hidx
  exact hmdf

/-- C6 witness: the amended theorem applied to `sampleTable` (the
`categories` column has index 4). -/
theorem clean_mutates_caller_witness :
    sampleMut = ⟨sampleTable.cols.eraseIdx 4,
      sampleTable.rows.map (fun r => r.eraseIdx 4)⟩ :=
  clean_mutates_caller sampleTable sampleOut sampleMut 4 sample_clean_eq rfl

/-! ### C7 — error conditions of the transformer -/

/-- C7 counterexample: the claim says `clean` fails exactly when some token
leaves the `name-digit` shape.  The token `request-12` of `tok12Table` is
not of that shape (two trailing digits), yet `clean_data` succeeds,
clamping the 12 to 1. -/
theorem malformed_token_cx :
    (splitOnChar ';' ("related-1;request-12".data)).map
        (fun tok => isNameDigit (String.mk tok)) = [true, false] ∧
    clean_data tok12Table = .ok (tok12Out, tok12Mut) :=
  ⟨by decide, rfl⟩

/-- C7 (amended): `clean`'s token-level failure is integer-conversion
failure, not a `name-digit` shape check: a token whose segment between the
first hyphen and the next hyphen (or the end) is any decimal literal is
accepted — so multi-digit tokens such as `request-12` succeed and are
clamped — and an empty first category string fails with the same
conversion error (`castError`), not a distinct `EmptyCategorySchema`. -/
theorem token_failure_is_cast_failure :
    (∀ (name ds : List Char), '-' ∉ name → ds ≠ [] →
      (∀ c ∈ ds, c.isDigit = true) →
      tokenValue (name ++ '-' :: ds) = (digitsToNat ds).map (fun n => (n : Int))) ∧
    clean_data tok12Table = .ok (tok12Out, tok12Mut) ∧
    clean_data emptyCatTable = Except.error CleanError.castError := by
  refine ⟨?_, rfl, rfl⟩
  intro name ds hname hne hds
  have hdsn : '-' ∉ ds := fun hmem => absurd (hds '-' hmem) (by decide)
  unfold tokenValue
  rw [splitOnChar_append '-' name ds hname, splitOnChar_of_not_mem '-' ds hdsn]
  show parseIntChars ds = (digitsToNat ds).map (fun n => (n : Int))
  exact parseIntChars_digits ds hne hds

/-- C7 witness: a hyphen-free name with the two-digit value segment `12`
decodes to the integer 12. -/
theorem token_failure_is_cast_failure_witness :
    tokenValue ("related".data ++ '-' :: ['1', '2'])
      = (digitsToNat ['1', '2']).map (fun n => (n : Int)) :=
  token_failure_is_cast_failure.1 "related".data ['1', '2']
    (by decide) (by decide) (by decide)

/-! ### C8 — join mismatch surfacing -/

/-- C8: with no identifier overlap between the two sources the merge
silently returns a zero-row table; `load_data` is total and raises no
`JoinMismatch` and prints no warning, contradicting the spec's requirement
that the condition be surfaced. -/
theorem load_disjoint_silent_empty :
    load_data disjointMessages disjointCategories
      = ⟨["id", "message", "original", "genre", "categories"], []⟩ := rfl

/-! ### C9 — usage handling of the entry point -/

/-- C9: invoked with any number of positional arguments other than three,
`main` only prints the usage message — no load, no transform, no write —
and returns normally with exit status 0. -/
theorem main_bad_argc_usage_only (prog : String) (args : List String)
    (h : args.length ≠ 3) :
    mainRun (prog :: args) = ([Step.printUsage], 0) := by
  unfold mainRun
  rw [if_neg]
  simp only [List.length_cons]
  omega

/-- C9 witness: invocation with no arguments at all. -/
theorem main_bad_argc_usage_only_witness :
    mainRun ["process_data.py"] = ([Step.printUsage], 0) :=
  main_bad_argc_usage_only "process_data.py" [] (by decide)

/-! ### C2 — deduplication keeps the first occurrence -/

/-- C2: after cleaning, no two rows share a `(message, original)` pair: the
output rows are a subsequence of the pre-dedup rows (which are the input
records with the category field replaced, in input order), no two of them
have equal dedup keys, and whenever a pre-dedup row is the first with its
key it survives — so of any two records with identical `(message, original)`
exactly the first-encountered one is kept, even when their categories
differ. -/
theorem clean_dedup_keeps_first (t pre out mdf mdf2 : Table) (mi oi : Nat)
    (hpre : clean_pre t = .ok (pre, mdf2))
    (hclean : clean_data t = .ok (out, mdf))
    (hmi : pre.cols.findIdx? (· = "message") = some mi)
    (hoi : pre.cols.findIdx? (· = "original") = some oi) :
    out.cols = pre.cols ∧
    out.rows.Sublist pre.rows ∧
    List.Pairwise (fun a b => dedupKey mi oi a ≠ dedupKey mi oi b) out.rows ∧
    ∀ l1 x l2, pre.rows = l1 ++ x :: l2 →
      (∀ z ∈ l1, dedupKey mi oi z ≠ dedupKey mi oi x) → x ∈ out.rows := by
  obtain ⟨pre2, mi2, oi2, hp2, hmi2, hoi2, hcols, hrows⟩ := clean_data_ok hclean
  rw [hpre] at hp2
  cases hp2
  rw [hmi] at hmi2
  cases hmi2
  rw [hoi] at hoi2
  cases hoi2
  refine ⟨hcols, ?_, ?_, ?_⟩
  · rw [hrows]
    exact dropDupBy_sublist _ [] pre.rows
  · rw [hrows]
    exact dropDupBy_pairwise _ [] pre.rows
  · intro l1 x l2 heq hfirst
    rw [hrows, heq]
    exact first_mem_dropDupBy _ [] l1 x l2 (by simp) hfirst

/-- C2 witness: on `sampleTable`, the first of the two rows sharing
`("Help me", "Aidez-moi")` survives and the output rows are a subsequence
of the pre-dedup rows. -/
theorem clean_dedup_keeps_first_witness :
    sampleOut.rows.Sublist samplePre.rows ∧
    [Cell.int 1, Cell.str "Help me", Cell.str "Aidez-moi", Cell.str "direct",
      Cell.int 1, Cell.int 0] ∈ sampleOut.rows := by
  have h := clean_dedup_keeps_first sampleTable samplePre sampleOut sampleMut
    sampleMut 1 2 sample_pre_eq sample_clean_eq rfl rfl
  refine ⟨h.2.1, ?_⟩
  refine h.2.2.2 []
    [Cell.int 1, Cell.str "Help me", Cell.str "Aidez-moi", Cell.str "direct",
      Cell.int 1, Cell.int 0]
    [[Cell.int 2, Cell.str "Help me", Cell.str "Aidez-moi", Cell.str "direct",
       Cell.int 0, Cell.int 1],
     [Cell.int 3, Cell.str "Water", Cell.null, Cell.str "news",
       Cell.int 1, Cell.int 1]] rfl (by simp)

/-! ### C10 — null originals deduplicate together -/

/-- C10: a missing `original` equals a missing `original` for
deduplication: rows whose message cells agree and whose original cells are
both null have equal dedup keys, the first such row survives, and at most
one row with that key remains in the output — null originals do not exempt
rows from deduplication. -/
theorem clean_dedup_null_equal (t pre out mdf mdf2 : Table) (mi oi : Nat)
    (hpre : clean_pre t = .ok (pre, mdf2))
    (hclean : clean_data t = .ok (out, mdf))
    (hmi : pre.cols.findIdx? (· = "message") = some mi)
    (hoi : pre.cols.findIdx? (· = "original") = some oi) :
    (∀ x y : List Cell, x.getD mi Cell.null = y.getD mi Cell.null →
      x.getD oi Cell.null = Cell.null → y.getD oi Cell.null = Cell.null →
      dedupKey mi oi x = dedupKey mi oi y) ∧
    ∀ l1 x l2, pre.rows = l1 ++ x :: l2 →
      x.getD oi Cell.null = Cell.null →
      (∀ z ∈ l1, dedupKey mi oi z ≠ dedupKey mi oi x) →
      x ∈ out.rows ∧
      out.rows.countP
        (fun r => decide (dedupKey mi oi r = dedupKey mi oi x)) ≤ 1 := by
  obtain ⟨pre2, mi2, oi2, hp2, hmi2, hoi2, hcols, hrows⟩ := clean_data_ok hclean
  rw [hpre] at hp2
  cases hp2
  rw [hmi] at hmi2
  cases hmi2
  rw [hoi] at hoi2
  cases hoi2
  refine ⟨?_, ?_⟩
  · intro x y hm hx hy
    unfold dedupKey
    rw [hm, hx, hy]
  · intro l1 x l2 heq hnull hfirst
    constructor
    · rw [hrows, heq]
      exact first_mem_dropDupBy _ [] l1 x l2 (by simp) hfirst
    · rw [hrows]
      exact countP_dropDupBy_le_one _ [] pre.rows _

/-- C10 witness: on `nullDupTable` (two rows, message "Help", original null
in both) the first row survives and at most one row with that key remains. -/
theorem clean_dedup_null_equal_witness :
    [Cell.int 1, Cell.str "Help", Cell.null, Cell.int 1] ∈ nullDupOut.rows ∧
    nullDupOut.rows.countP
      (fun r => decide (dedupKey 1 2 r
        = dedupKey 1 2 [Cell.int 1, Cell.str "Help", Cell.null, Cell.int 1])) ≤ 1 := by
  have h := clean_dedup_null_equal nullDupTable nullDupPre nullDupOut nullDupMut
    nullDupMut 1 2 nullDup_pre_eq nullDup_clean_eq rfl rfl
  exact h.2 [] [Cell.int 1, Cell.str "Help", Cell.null, Cell.int 1]
    [[Cell.int 2, Cell.str "Help", Cell.null, Cell.int 0]] rfl rfl (by simp)

/-- The column-name row has exactly the decoded frame's width (the first
row is padded to the widest row before naming). -/
theorem colnames_length_eq_width {df : Table} {names : List (List Char)}
    {tr : List (List (List Char))}
    (hn : colnamesE df = .ok names) (ht : tokenRowsE df = .ok tr) :
    names.length = maxLen tr := by
  obtain ⟨r0, prest, hpad, hmapE⟩ := colnamesE_ok hn
  obtain ⟨tr2, ht2, hpadEq⟩ := paddedE_ok hpad
  rw [ht] at ht2
  cases ht2
  have hlen : names.length = r0.length := mapE_ok_length hmapE
  cases tr with
  | nil => cases hpadEq
  | cons t0 trest =>
    rw [List.map_cons] at hpadEq
    cases hpadEq
    exact hlen.trans
      (padTo_length _ t0 (length_le_maxLen _ t0 (List.mem_cons_self _ _)))

/-- The clipped numeric frame has one row per input record. -/
theorem clippedE_length {df : Table} {m : List (List Int)}
    (hm : clippedE df = .ok m) : m.length = df.rows.length := by
  obtain ⟨pad, num, hpad, hnum, rfl⟩ := clippedE_ok hm
  obtain ⟨tr, ht, rfl⟩ := paddedE_ok hpad
  obtain ⟨ss, hss, rfl⟩ := tokenRowsE_ok ht
  obtain ⟨ci, hci, hmapE⟩ := catStrsE_ok hss
  rw [List.length_map, mapE_ok_length hnum, List.length_map, List.length_map,
    mapE_ok_length hmapE]

/-! ### C1 — decoded and clamped values are binary -/

/-- C1: decoding a `name-digit` token and clamping yields the digit's value
for `0` and `1` and the value `1` for every other digit; and in any
successfully cleaned table every cell of every surviving category column
(the columns appended after the original fields) is 0 or 1. -/
theorem clean_values_binary :
    (∀ (name : List Char) (d : Char), '-' ∉ name → d.isDigit = true →
      (tokenValue (name ++ ['-', d])).map clip
        = some (if d = '0' then (0 : Int) else 1)) ∧
    ∀ (t out mdf : Table), clean_data t = .ok (out, mdf) →
      (∀ r ∈ t.rows, r.length = t.cols.length) →
      ∀ r ∈ out.rows, ∀ j, mdf.cols.length ≤ j →
        r.getD j (Cell.int 0) = Cell.int 0 ∨ r.getD j (Cell.int 0) = Cell.int 1 := by
  constructor
  · intro name d hname hd
    have hplain := isDigit_plain d hd
    have hsplit : splitOnChar '-' (name ++ ['-', d]) = [name, [d]] := by
      rw [show name ++ ['-', d] = name ++ '-' :: [d] from rfl,
        splitOnChar_append '-' name [d] hname,
        splitOnChar_of_not_mem '-' [d]
          (by
            simp only [List.mem_singleton]
            exact fun h => hplain.2.1 h.symm)]
    unfold tokenValue
    rw [hsplit]
    show (parseIntChars [d]).map clip = _
    rw [parseIntChars_digits [d] (by simp) (by simp [hd]),
      digitsToNat_single d hd]
    show some (clip ((d.toNat - 48 : Nat) : Int))
      = some (if d = '0' then (0 : Int) else 1)
    by_cases h0 : d = '0'
    · subst h0
      rfl
    · rw [if_neg h0]
      simp only [Char.isDigit, Bool.and_eq_true, decide_eq_true_eq] at hd
      have h48 : 48 ≤ d.toNat := hd.1
      have hne48 : d.toNat ≠ 48 :=
        fun h => h0 (Char.eq_of_val_eq (UInt32.ext h))
      have h1 : (1 : Int) ≤ ((d.toNat - 48 : Nat) : Int) := by
        have : 1 ≤ d.toNat - 48 := by omega
        exact_mod_cast this
      have : clip ((d.toNat - 48 : Nat) : Int) = 1 := by
        unfold clip
        omega
      rw [this]
  · intro t out mdf h hrect r hr j hj
    obtain ⟨pre, mi, oi, hp, hmi, hoi, hcols, hrows⟩ := clean_data_ok h
    obtain ⟨names, catNames, catRows, hn, hnd, hmut, hsn, hcr, hpcols, hprows⟩ :=
      clean_pre_ok hp
    have hrpre : r ∈ pre.rows := by
      rw [hrows] at hr
      exact (dropDupBy_sublist _ [] pre.rows).subset hr
    rw [hprows] at hrpre
    obtain ⟨mrow, hmrow, crow, hcrow, rfl⟩ := mem_zipWith hrpre
    obtain ⟨m, surv, hm, hs, hcrEq⟩ := catRowsE_ok hcr
    rw [hcrEq] at hcrow
    obtain ⟨mr, hmr, rfl⟩ := List.mem_map.1 hcrow
    obtain ⟨pad, num, hpad, hnum, hmEq⟩ := clippedE_ok hm
    rw [hmEq] at hmr
    obtain ⟨nr, hnr, rfl⟩ := List.mem_map.1 hmr
    obtain ⟨ci, hci, hmdfEq⟩ := mutTableE_ok hmut
    subst hmdfEq
    have hciLt : ci < t.cols.length := findIdx?_some_lt (getCatIdx_ok hci)
    obtain ⟨row, hrow, rfl⟩ := List.mem_map.1 hmrow
    have hrowlen : row.length = t.cols.length := hrect row hrow
    have hmrowlen : (row.eraseIdx ci).length = t.cols.length - 1 := by
      rw [List.length_eraseIdx_of_lt (hrowlen ▸ hciLt), hrowlen]
    have hcolslen : (t.cols.eraseIdx ci).length = t.cols.length - 1 :=
      List.length_eraseIdx_of_lt hciLt
    have hjge : (row.eraseIdx ci).length ≤ j := by
      rw [hmrowlen, ← hcolslen]
      exact hj
    rw [getD_append_right_of_le _ hjge, List.getD_eq_getElem?_getD,
      List.getElem?_map]
    cases hk : surv[j - (row.eraseIdx ci).length]? with
    | none => exact Or.inl rfl
    | some jj =>
      show Cell.int ((nr.map clip).getD jj 0) = Cell.int 0 ∨
        Cell.int ((nr.map clip).getD jj 0) = Cell.int 1
      rcases getD_map_clip_binary nr jj with h0 | h1
      · exact Or.inl (by rw [h0])
      · exact Or.inr (by rw [h1])

/-- C1 witness: the token `alert-2` decodes and clamps to 1, and in
`clean_data sampleTable` the cell of the first output row in the first
surviving category column (index 4, past the 4 original fields) is
binary. -/
theorem clean_values_binary_witness :
    (tokenValue ("alert".data ++ ['-', '2'])).map clip = some 1 ∧
    ([Cell.int 1, Cell.str "Help me", Cell.str "Aidez-moi", Cell.str "direct",
      Cell.int 1, Cell.int 0].getD 4 (Cell.int 0) = Cell.int 0 ∨
     [Cell.int 1, Cell.str "Help me", Cell.str "Aidez-moi", Cell.str "direct",
      Cell.int 1, Cell.int 0].getD 4 (Cell.int 0) = Cell.int 1) := by
  constructor
  · exact (clean_values_binary.1 "alert".data '2' (by decide) (by decide)).trans
      (by decide)
  · exact clean_values_binary.2 sampleTable sampleOut sampleMut sample_clean_eq
      (by decide)
      [Cell.int 1, Cell.str "Help me", Cell.str "Aidez-moi", Cell.str "direct",
        Cell.int 1, Cell.int 0]
      (by decide) 4 (by decide)

/-! ### C3 — constant category columns are pruned -/

/-- C3: the pruning is computed once, globally, on the clipped values: if
the clipped values of category column `j` agree across all rows of a
nonempty input, that column's name is not among the surviving category
names, and the output schema consists of the mutated original columns
followed by exactly the surviving category columns. -/
theorem clean_drops_constant_columns (t out mdf : Table)
    (names catNames : List (List Char)) (m : List (List Int)) (j : Nat)
    (hclean : clean_data t = .ok (out, mdf))
    (hnames : colnamesE t = .ok names)
    (hsn : survivorNamesE t = .ok catNames)
    (hm : clippedE t = .ok m)
    (hj : j < names.length)
    (hne : t.rows ≠ [])
    (hconst : ∀ a ∈ m.map (fun r => r.getD j 0),
      ∀ b ∈ m.map (fun r => r.getD j 0), a = b) :
    out.cols = mdf.cols ++ catNames.map (fun n => String.mk n) ∧
    names.getD j [] ∉ catNames := by
  obtain ⟨pre, mi, oi, hp, -, -, hcols, -⟩ := clean_data_ok hclean
  obtain ⟨names2, catNames2, catRows, hn2, hnd, hmut, hsn2, hcr, hpcols, -⟩ :=
    clean_pre_ok hp
  rw [hnames] at hn2
  cases hn2
  rw [hsn] at hsn2
  cases hsn2
  refine ⟨by rw [hcols, hpcols], ?_⟩
  obtain ⟨names3, surv, hn3, hs, hcatEq⟩ := survivorNamesE_ok hsn
  rw [hnames] at hn3
  cases hn3
  obtain ⟨tr, m2, ht, hm2, hsurvEq⟩ := survivorsE_ok hs
  rw [hm] at hm2
  cases hm2
  have hW : names.length = maxLen tr := colnames_length_eq_width hnames ht
  have hmne : m.map (fun r => r.getD j 0) ≠ [] := by
    intro hnil
    apply hne
    have hlen0 := congrArg List.length hnil
    rw [List.length_map, clippedE_length hm] at hlen0
    exact List.eq_nil_of_length_eq_zero hlen0
  have hded : (m.map (fun r => r.getD j 0)).dedup.length = 1 :=
    dedup_length_one _ hmne hconst
  have hjnot : j ∉ surv := by
    rw [hsurvEq]
    intro hmem
    rw [List.mem_filter] at hmem
    have h2 := hmem.2
    rw [decide_eq_true_eq] at h2
    exact h2 hded
  rw [hcatEq]
  intro hmem
  obtain ⟨j2, hj2, hj2eq⟩ := List.mem_map.1 hmem
  have hj2lt : j2 < names.length := by
    rw [hW]
    exact List.mem_range.1 (List.mem_filter.1 (hsurvEq ▸ hj2)).1
  have hj2j : j2 = j := getD_inj_of_nodup hnd [] hj2lt hj hj2eq
  exact hjnot (hj2j ▸ hj2)

/-- C3 witness: in `sampleTable` the third category column `offer` is
constantly 1 after clipping, so `offer` is not a surviving name and the
output schema is the four original columns plus `related`, `request`. -/
theorem clean_drops_constant_columns_witness :
    sampleOut.cols = sampleMut.cols
      ++ ["related".data, "request".data].map (fun n => String.mk n) ∧
    "offer".data ∉ ["related".data, "request".data] :=
  clean_drops_constant_columns sampleTable sampleOut sampleMut
    ["related".data, "request".data, "offer".data]
    ["related".data, "request".data]
    [[1, 0, 1], [0, 1, 1], [1, 1, 1]] 2
    sample_clean_eq rfl rfl rfl (by decide) (by decide) (by decide)

/-! ### C4 — output schema shape and order -/

/-- C4: the cleaned table's schema is the input's columns with the
`categories` field removed (in their original order) followed by the
surviving category columns, whose names are a subsequence (hence a
first-seen-order selection) of the names decoded from the first record's
category string; and that schema applies uniformly — every output row has
exactly one cell per schema column. -/
theorem clean_output_schema (t out mdf : Table) (ci : Nat)
    (names catNames : List (List Char))
    (hclean : clean_data t = .ok (out, mdf))
    (hci : t.cols.findIdx? (· = "categories") = some ci)
    (hnames : colnamesE t = .ok names)
    (hsn : survivorNamesE t = .ok catNames)
    (hrect : ∀ r ∈ t.rows, r.length = t.cols.length) :
    out.cols = t.cols.eraseIdx ci ++ catNames.map (fun n => String.mk n) ∧
    catNames.Sublist names ∧
    ∀ r ∈ out.rows, r.length = out.cols.length := by
  obtain ⟨pre, mi, oi, hp, -, -, hcols, hrows⟩ := clean_data_ok hclean
  obtain ⟨names2, catNames2, catRows, hn2, hnd, hmut, hsn2, hcr, hpcols, hprows⟩ :=
    clean_pre_ok hp
  rw [hnames] at hn2
  cases hn2
  rw [hsn] at hsn2
  cases hsn2
  obtain ⟨ci2, hci2, hmdfEq⟩ := mutTableE_ok hmut
  have hciIdx := getCatIdx_ok hci2
  rw [hci] at hciIdx
  cases hciIdx
  have hciLt : ci < t.cols.length := findIdx?_some_lt (getCatIdx_ok hci2)
  subst hmdfEq
  refine ⟨by rw [hcols, hpcols], ?_, ?_⟩
  · obtain ⟨names3, surv, hn3, hs, hcatEq⟩ := survivorNamesE_ok hsn
    rw [hnames] at hn3
    cases hn3
    obtain ⟨tr, m, ht, hm, hsurvEq⟩ := survivorsE_ok hs
    have hW : names.length = maxLen tr := colnames_length_eq_width hnames ht
    rw [hcatEq, hsurvEq, ← hW]
    exact filter_range_map_getD_sublist names _ []
  · intro r hr
    have hrpre : r ∈ pre.rows := by
      rw [hrows] at hr
      exact (dropDupBy_sublist _ [] pre.rows).subset hr
    rw [hprows] at hrpre
    obtain ⟨mrow, hmrow, crow, hcrow, rfl⟩ := mem_zipWith hrpre
    obtain ⟨row, hrow, rfl⟩ := List.mem_map.1 hmrow
    obtain ⟨m, surv, hm, hs, hcrEq⟩ := catRowsE_ok hcr
    rw [hcrEq] at hcrow
    obtain ⟨mr, hmr, rfl⟩ := List.mem_map.1 hcrow
    obtain ⟨names3, surv2, hn3, hs2, hcatEq⟩ := survivorNamesE_ok hsn
    rw [hnames] at hn3
    cases hn3
    rw [hs] at hs2
    cases hs2
    rw [hcols, hpcols]
    simp only [List.length_append, List.length_map]
    have h1 : (row.eraseIdx ci).length = (t.cols.eraseIdx ci).length := by
      rw [List.length_eraseIdx_of_lt (by rw [hrect row hrow]; exact hciLt),
        List.length_eraseIdx_of_lt hciLt, hrect row hrow]
    rw [h1, hcatEq, List.length_map]

/-- C4 witness: the schema equation, the subsequence property, and the
uniform row width on `sampleTable`. -/
theorem clean_output_schema_witness :
    sampleOut.cols = sampleTable.cols.eraseIdx 4
      ++ ["related".data, "request".data].map (fun n => String.mk n) ∧
    List.Sublist ["related".data, "request".data]
      ["related".data, "request".data, "offer".data] ∧
    [Cell.int 3, Cell.str "Water", Cell.null, Cell.str "news",
      Cell.int 1, Cell.int 1].length = sampleOut.cols.length := by
  have h := clean_output_schema sampleTable sampleOut sampleMut 4
    ["related".data, "request".data, "offer".data]
    ["related".data, "request".data]
    sample_clean_eq rfl rfl rfl (by decide)
  exact ⟨h.1, h.2.1, h.2.2 _ (by decide)⟩

end DisasterPipeline
